import Mathlib

/-!
Verification model of the enhanced Telegram video downloader bot
(`enhanced_video_bot.py`).

The development shallowly embeds the components the specification talks
about:

* the URL classifier (`is_video_platform`, `get_platform_type`), including a
  faithful model of the `netloc` extraction performed by Python's
  `urlparse` on the lowercased URL;
* the transfer preparer (`split_large_file`), modelled on byte lists, both in
  a fault-free form and in a form with an explicit fault schedule mirroring
  the `try/except` structure of the source;
* the oversized-file branch of the message handler (`handler_split`), which
  calls `split_large_file(file_path, MAX_FILE_SIZE)`;
* the acquisition strategy chain (`download_video`), modelled over an
  environment recording the outcome of each external strategy, producing the
  ordered list of attempted strategies together with the final result;
* the workspace cleanup (`cleanup_all`), modelled over an abstract
  filesystem with a possibly failing `rmtree` oracle.

File contents are byte lists (`List Nat`); file sizes are list lengths.
-/

namespace VideoBot

/-- Telegram delivery limit, source line 33: `MAX_FILE_SIZE = 50 * 1024 * 1024`. -/
def MAX_FILE_SIZE : Nat := 50 * 1024 * 1024

/-- Configured split chunk size, source line 34: `CHUNK_SIZE = 1024 * 1024`. -/
def CHUNK_SIZE : Nat := 1024 * 1024

/-- ASCII lowercasing of a single character, as Python `str.lower` acts on
ASCII input. -/
def lowerChar (c : Char) : Char :=
  if c.isUpper then Char.ofNat (c.toNat + 32) else c

/-- Lowercase a character list (model of `url.lower()`). -/
def lowerList (cs : List Char) : List Char := cs.map lowerChar

/-- Python's substring test `sub in s`: `sub` occurs contiguously in `s`. -/
def listContains (s sub : List Char) : Bool := decide (sub <:+: s)

/-- Characters allowed in a URL scheme by Python's `urlparse`. -/
def isSchemeChar (c : Char) : Bool :=
  c.isAlphanum || c == '+' || c == '-' || c == '.'

/-- Whether the first character exists and is an ASCII letter. -/
def headIsAlpha (cs : List Char) : Bool :=
  match cs with
  | [] => false
  | c :: _ => c.isAlpha

/-- Scheme-stripping step of Python's `urlsplit`: if the text up to the first
colon is a valid scheme, drop it (including the colon). -/
def dropScheme (cs : List Char) : List Char :=
  match cs.findIdx? (fun c => c == ':') with
  | some i =>
    if 0 < i ∧ headIsAlpha cs = true ∧ (cs.take i).all isSchemeChar = true then
      cs.drop (i + 1)
    else cs
  | none => cs

/-- True for characters that do not terminate the netloc component. -/
def notDelim (c : Char) : Bool := !(c == '/' || c == '?' || c == '#')

/-- The `netloc` component of Python's `urlparse`: after the scheme, a
leading `//` introduces the netloc, which extends to the first `/`, `?`
or `#`. -/
def netlocList (cs : List Char) : List Char :=
  if (dropScheme cs).take 2 = ['/', '/'] then
    ((dropScheme cs).drop 2).takeWhile notDelim
  else []

/-- Host substrings recognised by `is_video_platform` (source lines 358-363). -/
def video_platforms : List (List Char) :=
  ["youtube.com".data, "youtu.be".data, "vimeo.com".data, "dailymotion.com".data,
   "twitch.tv".data, "instagram.com".data, "tiktok.com".data, "twitter.com".data,
   "facebook.com".data, "reddit.com".data, "pinterest.com".data, "snapchat.com".data,
   "linkedin.com".data, "tumblr.com".data, "discord.com".data]

/-- Core of `is_video_platform`, as a function of the netloc. -/
def is_video_platform_core (n : List Char) : Bool :=
  video_platforms.any (fun p => listContains n p)

/-- `EnhancedVideoDownloader.is_video_platform` (source lines 356-365):
some known platform host substring occurs in the netloc of the lowercased
URL. -/
def is_video_platform (url : String) : Bool :=
  is_video_platform_core (netlocList (lowerList url.data))

/-- Core of `get_platform_type`, as a function of the netloc: the
if/elif chain of source lines 372-389. -/
def get_platform_type_core (n : List Char) : String :=
  if listContains n "youtube.com".data || listContains n "youtu.be".data then "youtube"
  else if listContains n "instagram.com".data then "instagram"
  else if listContains n "tiktok.com".data then "tiktok"
  else if listContains n "twitter.com".data then "twitter"
  else if listContains n "facebook.com".data then "facebook"
  else if listContains n "vimeo.com".data then "vimeo"
  else if listContains n "dailymotion.com".data then "dailymotion"
  else if listContains n "twitch.tv".data then "twitch"
  else "other"

/-- `EnhancedVideoDownloader.get_platform_type` (source lines 367-389). -/
def get_platform_type (url : String) : String :=
  get_platform_type_core (netlocList (lowerList url.data))

/-- The host-substring/tag table implicit in `get_platform_type`. -/
def platformTable : List (String × String) :=
  [("youtube.com", "youtube"), ("youtu.be", "youtube"), ("instagram.com", "instagram"),
   ("tiktok.com", "tiktok"), ("twitter.com", "twitter"), ("facebook.com", "facebook"),
   ("vimeo.com", "vimeo"), ("dailymotion.com", "dailymotion"), ("twitch.tv", "twitch")]

/-- Index of the last occurrence of `c` in `cs`, if any (Python `str.rfind`). -/
def rfindIdx (cs : List Char) (c : Char) : Option Nat :=
  match (cs.reverse).findIdx? (fun x => x == c) with
  | some i => some (cs.length - 1 - i)
  | none => none

/-- Split index of Python's `os.path.splitext`: position where the extension
starts, or the full length when there is no extension.  The extension starts
at the last dot, provided the dot lies after the last path separator and the
file name has a non-dot character before that dot. -/
def extSplitIndex (cs : List Char) : Nat :=
  match rfindIdx cs '.' with
  | none => cs.length
  | some d =>
    let fstart : Nat :=
      match rfindIdx cs '/' with
      | some s => s + 1
      | none => 0
    if fstart ≤ d ∧ (((cs.drop fstart).take (d - fstart)).any (fun c => !(c == '.'))) = true
    then d
    else cs.length

/-- Python `os.path.splitext`: root and extension of a path. -/
def splitext (p : String) : String × String :=
  (String.mk (p.data.take (extSplitIndex p.data)),
   String.mk (p.data.drop (extSplitIndex p.data)))

/-- Zero-padded three-digit rendering of a chunk index (Python format
spec `03d`). -/
def pad3 (n : Nat) : String :=
  let s := Nat.repr n
  if s.length < 3 then String.mk (List.replicate (3 - s.length) '0') ++ s else s

/-- Name of the i-th chunk file produced by `split_large_file`
(source line 256): root, `_part`, padded index, extension. -/
def chunkName (path : String) (i : Nat) : String :=
  (splitext path).1 ++ "_part" ++ pad3 i ++ (splitext path).2

/-- Fuel-indexed read loop of `split_large_file`: repeatedly take `n`-byte
chunks until the remaining input is empty.  A read with chunk size 0 returns
the empty chunk, ending the loop immediately, exactly as Python's
`source.read(0)` does.  The fuel only bounds the recursion; callers pass the
input length, which the loop never exceeds. -/
def chunkListGo {α : Type} : Nat → List α → Nat → List (List α)
  | _, [], _ => []
  | _, _ :: _, 0 => []
  | 0, _ :: _, _ + 1 => []
  | f + 1, c :: rest, m + 1 =>
    ((c :: rest).take (m + 1)) :: chunkListGo f (rest.drop m) (m + 1)

/-- The list of successive `n`-byte chunks of `cs`. -/
def chunkList {α : Type} (cs : List α) (n : Nat) : List (List α) :=
  chunkListGo cs.length cs n

/-- Helper attaching chunk file names to chunk contents, with the running
chunk index, mirroring the `chunk_num` counter of the source loop. -/
def nameChunks (path : String) : List (List Nat) → Nat → List (String × List Nat)
  | [], _ => []
  | c :: rest, i => (chunkName path i, c) :: nameChunks path rest (i + 1)

/-- `EnhancedVideoDownloader.split_large_file` (source lines 238-268),
fault-free run: a file at or under `MAX_FILE_SIZE` is returned unchanged as
the single part; an oversized file is cut into `csize`-byte chunks written
to `_partNNN` files. -/
def split_large_file (path : String) (data : List Nat) (csize : Nat) :
    List (String × List Nat) :=
  if data.length ≤ MAX_FILE_SIZE then [(path, data)]
  else nameChunks path (chunkList data csize) 0

/-- Fuel-indexed split loop with a fault schedule: `wf i = true` means the
write of chunk `i` raises.  Mirrors the loop body of `split_large_file`,
where each iteration reads a chunk and then writes it. -/
def splitChunksGo : Nat → List Nat → Nat → (Nat → Bool) → Nat →
    Except Unit (List (List Nat))
  | _, [], _, _, _ => Except.ok []
  | _, _ :: _, 0, _, _ => Except.ok []
  | 0, _ :: _, _ + 1, _, _ => Except.ok []
  | f + 1, c :: rest, m + 1, wf, i =>
    if wf i then Except.error ()
    else
      match splitChunksGo f (rest.drop m) (m + 1) wf (i + 1) with
      | Except.ok others => Except.ok (((c :: rest).take (m + 1)) :: others)
      | Except.error e => Except.error e

/-- The split loop of `split_large_file` under a fault schedule. -/
def splitChunksF (cs : List Nat) (n : Nat) (wf : Nat → Bool) :
    Except Unit (List (List Nat)) :=
  splitChunksGo cs.length cs n wf 0

/-- `split_large_file` with explicit faults: `sizeFault` models an exception
in `os.path.getsize`, `wf` models exceptions while writing chunk files.  The
surrounding `try/except` of the source returns `[file_path]` whenever any
exception is raised. -/
def split_large_fileF (path : String) (data : List Nat) (csize : Nat)
    (sizeFault : Bool) (wf : Nat → Bool) : List (String × List Nat) :=
  if sizeFault then [(path, data)]
  else if data.length ≤ MAX_FILE_SIZE then [(path, data)]
  else
    match splitChunksF data csize wf with
    | Except.ok chunks => nameChunks path chunks 0
    | Except.error _ => [(path, data)]

/-- Oversized-file branch of the message handler (source lines 571-577):
when the downloaded file exceeds `MAX_FILE_SIZE` the handler calls
`split_large_file(file_path, MAX_FILE_SIZE)`; otherwise the file is sent as
is. -/
def handler_split (path : String) (data : List Nat) : List (String × List Nat) :=
  if MAX_FILE_SIZE < data.length then split_large_file path data MAX_FILE_SIZE
  else [(path, data)]

/-- The acquisition strategies of the chain, in their source order. -/
inductive Strategy : Type
  | ytdlp
  | youtubedl
  | instaloader
  | enhanced
  | direct
deriving DecidableEq, Repr

/-- Environment of one `download_video` run: the outcome each external
strategy would produce if attempted (`none` = no file), together with the
filesystem facts the handler consults afterwards. -/
structure Env : Type where
  ytdlp : Option String
  youtubedl : Option String
  instaloader : Option String
  enhanced : Option String
  direct : Option String
  fsExists : String → Bool
  fsSize : String → Nat

/-- `EnhancedVideoDownloader.download_with_yt_dlp_fallback`
(source lines 185-203): yt-dlp, then youtube-dl, then — only when
`'instagram.com' in url.lower()` — instaloader; stops at the first strategy
returning a file.  Returns the attempts made (with their outcomes) and the
final result. -/
def download_with_yt_dlp_fallback (env : Env) (url : String) :
    List (Strategy × Option String) × Option String :=
  match env.ytdlp with
  | some r => ([(Strategy.ytdlp, some r)], some r)
  | none =>
    match env.youtubedl with
    | some r => ([(Strategy.ytdlp, none), (Strategy.youtubedl, some r)], some r)
    | none =>
      if listContains (lowerList url.data) "instagram.com".data then
        ([(Strategy.ytdlp, none), (Strategy.youtubedl, none),
          (Strategy.instaloader, env.instaloader)], env.instaloader)
      else ([(Strategy.ytdlp, none), (Strategy.youtubedl, none)], none)

/-- Gate of the enhanced-headers fallback (source line 292): the platform
tag is one of youtube, instagram, tiktok. -/
def platformIn3 (url : String) : Bool :=
  get_platform_type url == "youtube" || get_platform_type url == "instagram" ||
    get_platform_type url == "tiktok"

/-- `EnhancedVideoDownloader.download_video` (source lines 270-312): the
three-method chain, returning the ordered attempt list and the final
outcome (`none` models the raised exception when no existing file was
produced). -/
def download_video_run (env : Env) (url : String) :
    List (Strategy × Option String) × Option String :=
  let s1 :=
    if is_video_platform url then download_with_yt_dlp_fallback env url
    else (([] : List (Strategy × Option String)), (none : Option String))
  let s2 :=
    match s1.2 with
    | some r => (s1.1, (some r : Option String))
    | none =>
      if is_video_platform url && platformIn3 url then
        (s1.1 ++ [(Strategy.enhanced, env.enhanced)], env.enhanced)
      else (s1.1, (none : Option String))
  let s3 :=
    match s2.2 with
    | some r => (s2.1, (some r : Option String))
    | none => (s2.1 ++ [(Strategy.direct, env.direct)], env.direct)
  match s3.2 with
  | some p => (s3.1, if env.fsExists p then some p else none)
  | none => (s3.1, (none : Option String))

/-- Result of the acquisition chain: `some path` when `download_video`
returns a path, `none` when it raises. -/
def download_video (env : Env) (url : String) : Option String :=
  (download_video_run env url).2

/-- The strategies attempted by one `download_video` run, in order, each
with its outcome. -/
def attempts (env : Env) (url : String) : List (Strategy × Option String) :=
  (download_video_run env url).1

/-- Final existence check of `download_video` (source line 305): a chain
result is returned only if the file exists; otherwise the function raises
(`none`). -/
def finalize (env : Env) (r : Option String) : Option String :=
  match r with
  | some p => if env.fsExists p then some p else none
  | none => none

/-- Every applicable strategy of the chain failed to produce a file. -/
def AllFail (env : Env) (url : String) : Prop :=
  (is_video_platform url = true →
    env.ytdlp = none ∧ env.youtubedl = none ∧
    (listContains (lowerList url.data) "instagram.com".data = true →
      env.instaloader = none) ∧
    (platformIn3 url = true → env.enhanced = none)) ∧
  env.direct = none

/-- Soundness of the environment: any path a strategy reports was actually
written or found on disk, so it exists.  This holds for every strategy of
the source: the subprocess strategies return a path obtained from a
directory listing and the HTTP strategies return the path they just wrote. -/
def ProducedExist (env : Env) : Prop :=
  (∀ p, env.ytdlp = some p → env.fsExists p = true) ∧
  (∀ p, env.youtubedl = some p → env.fsExists p = true) ∧
  (∀ p, env.instaloader = some p → env.fsExists p = true) ∧
  (∀ p, env.enhanced = some p → env.fsExists p = true) ∧
  (∀ p, env.direct = some p → env.fsExists p = true)

/-- Abstract filesystem: the set of existing paths. -/
structure FS : Type where
  mem : List String

/-- Path existence test (`os.path.exists`). -/
def FS.hasPath (fs : FS) (p : String) : Bool := fs.mem.contains p

/-- `EnhancedVideoDownloader.cleanup_all` (source lines 391-398), with the
exception flow explicit: inside the `try`, if the temp directory exists it
is removed by `rmtree` (which may fail); the `except` clause swallows the
failure, so the function always returns normally.  `Except.ok` is the
normal return, `Except.error` would be a propagated exception. -/
def cleanup_allE (tempDir : String) (rmtree : FS → Except Unit FS) (fs : FS) :
    Except Unit FS :=
  match (if fs.hasPath tempDir then rmtree fs else Except.ok fs) with
  | Except.ok fs2 => Except.ok fs2
  | Except.error _ => Except.ok fs

/-- The filesystem state after a `cleanup_all` call. -/
def cleanup_all (tempDir : String) (rmtree : FS → Except Unit FS) (fs : FS) : FS :=
  match cleanup_allE tempDir rmtree fs with
  | Except.ok fs2 => fs2
  | Except.error _ => fs

/-- A file one byte over the delivery limit (worst small oversized case). -/
def bigData : List Nat := List.replicate (MAX_FILE_SIZE + 1) 0

/-- Environment where only the plain direct fetch yields a file, the file
exists but is empty. -/
def envDirectEmpty : Env :=
  ⟨none, none, none, none, some "f", fun p => p == "f", fun _ => 0⟩

/-- Environment where every strategy fails. -/
def envAllNone : Env :=
  ⟨none, none, none, none, none, fun _ => false, fun _ => 0⟩

/-- Environment where only instaloader would yield a file. -/
def envInsta : Env :=
  ⟨none, none, some "i", none, none, fun _ => false, fun _ => 0⟩

end VideoBot

namespace VideoBot

theorem chunkListGo_nil {α : Type} (f n : Nat) : chunkListGo f ([] : List α) n = [] := by
  cases f <;> cases n <;> rfl

theorem chunkListGo_flatten {α : Type} :
    ∀ (f m : Nat) (cs : List α), cs.length ≤ f →
      (chunkListGo f cs (m + 1)).flatten = cs := by
  intro f
  induction f with
  | zero =>
    intro m cs hcs
    have h0 : cs = [] := List.eq_nil_of_length_eq_zero (Nat.le_zero.mp hcs)
    subst h0
    rfl
  | succ k ih =>
    intro m cs hcs
    cases cs with
    | nil => rfl
    | cons c rest =>
      have hlen : (rest.drop m).length ≤ k := by
        simp only [List.length_drop]
        simp only [List.length_cons] at hcs
        omega
      show ((c :: rest).take (m + 1) :: chunkListGo k (rest.drop m) (m + 1)).flatten = c :: rest
      rw [List.flatten_cons, ih m (rest.drop m) hlen]
      have hdrop : rest.drop m = (c :: rest).drop (m + 1) := (List.drop_succ_cons).symm
      rw [hdrop, List.take_append_drop]

theorem chunkListGo_length {α : Type} :
    ∀ (f m : Nat) (cs : List α), cs.length ≤ f →
      (chunkListGo f cs (m + 1)).length = (cs.length + (m + 1) - 1) / (m + 1) := by
  intro f
  induction f with
  | zero =>
    intro m cs hcs
    have h0 : cs = [] := List.eq_nil_of_length_eq_zero (Nat.le_zero.mp hcs)
    subst h0
    show (0 : Nat) = (0 + (m + 1) - 1) / (m + 1)
    rw [Nat.zero_add]
    exact (Nat.div_eq_of_lt (by omega)).symm
  | succ k ih =>
    intro m cs hcs
    cases cs with
    | nil =>
      show (0 : Nat) = (0 + (m + 1) - 1) / (m + 1)
      rw [Nat.zero_add]
      exact (Nat.div_eq_of_lt (by omega)).symm
    | cons c rest =>
      have hlen : (rest.drop m).length ≤ k := by
        simp only [List.length_drop]
        simp only [List.length_cons] at hcs
        omega
      show (chunkListGo k (rest.drop m) (m + 1)).length + 1 =
        ((c :: rest).length + (m + 1) - 1) / (m + 1)
      rw [ih m (rest.drop m) hlen]
      simp only [List.length_drop, List.length_cons]
      rcases le_or_lt rest.length m with hcase | hcase
      · have h1 : rest.length - m = 0 := by omega
        rw [h1]
        have h2 : (0 + (m + 1) - 1) / (m + 1) = 0 := by
          rw [Nat.zero_add]
          exact Nat.div_eq_of_lt (by omega)
        rw [h2]
        have h3 : rest.length + 1 + (m + 1) - 1 = rest.length + (m + 1) := by omega
        rw [h3, Nat.add_div_right _ (by omega)]
        have h4 : rest.length / (m + 1) = 0 := Nat.div_eq_of_lt (by omega)
        rw [h4]
      · have h1 : rest.length - m + (m + 1) - 1 = rest.length := by omega
        rw [h1]
        have h2 : rest.length + 1 + (m + 1) - 1 = rest.length + (m + 1) := by omega
        rw [h2, Nat.add_div_right _ (by omega)]

theorem chunkList_flatten {α : Type} (cs : List α) (n : Nat) (hn : 0 < n) :
    (chunkList cs n).flatten = cs := by
  obtain ⟨m, rfl⟩ : ∃ m, n = m + 1 := ⟨n - 1, by omega⟩
  exact chunkListGo_flatten cs.length m cs (le_refl _)

theorem chunkList_length {α : Type} (cs : List α) (n : Nat) (hn : 0 < n) :
    (chunkList cs n).length = (cs.length + n - 1) / n := by
  obtain ⟨m, rfl⟩ : ∃ m, n = m + 1 := ⟨n - 1, by omega⟩
  exact chunkListGo_length cs.length m cs (le_refl _)

theorem chunkList_single {α : Type} (cs : List α) (m : Nat) (hne : cs ≠ [])
    (hle : cs.length ≤ m + 1) : chunkList cs (m + 1) = [cs] := by
  cases cs with
  | nil => exact absurd rfl hne
  | cons c rest =>
    have h1 : (c :: rest).take (m + 1) = c :: rest := List.take_of_length_le hle
    have h2 : rest.drop m = [] := List.drop_eq_nil_of_le (by
      simp only [List.length_cons] at hle
      omega)
    show ((c :: rest).take (m + 1)) :: chunkListGo rest.length (rest.drop m) (m + 1) =
      [c :: rest]
    rw [h1, h2, chunkListGo_nil]

theorem nameChunks_length (path : String) :
    ∀ (l : List (List Nat)) (i : Nat), (nameChunks path l i).length = l.length := by
  intro l
  induction l with
  | nil => intro i; rfl
  | cons c rest ih =>
    intro i
    show (nameChunks path rest (i + 1)).length + 1 = rest.length + 1
    rw [ih (i + 1)]

theorem nameChunks_map_snd (path : String) :
    ∀ (l : List (List Nat)) (i : Nat), (nameChunks path l i).map Prod.snd = l := by
  intro l
  induction l with
  | nil => intro i; rfl
  | cons c rest ih =>
    intro i
    show c :: (nameChunks path rest (i + 1)).map Prod.snd = c :: rest
    rw [ih (i + 1)]

theorem nameChunks_names (path : String) :
    ∀ (l : List (List Nat)) (i : Nat) (x : String × List Nat),
      x ∈ nameChunks path l i → ∃ j, x.1 = chunkName path j := by
  intro l
  induction l with
  | nil =>
    intro i x hx
    simp [nameChunks] at hx
  | cons c rest ih =>
    intro i x hx
    rcases List.mem_cons.mp hx with h | h
    · exact ⟨i, by rw [h]⟩
    · exact ih (i + 1) x h

theorem split_large_file_small (path : String) (data : List Nat) (csize : Nat)
    (hsmall : data.length ≤ MAX_FILE_SIZE) :
    split_large_file path data csize = [(path, data)] := by
  unfold split_large_file
  rw [if_pos hsmall]

theorem split_large_file_length (path : String) (data : List Nat) (csize : Nat)
    (hc : 0 < csize) (hbig : MAX_FILE_SIZE < data.length) :
    (split_large_file path data csize).length = (data.length + csize - 1) / csize := by
  unfold split_large_file
  rw [if_neg (by omega), nameChunks_length, chunkList_length data csize hc]

theorem split_large_file_flatten (path : String) (data : List Nat) (csize : Nat)
    (hc : 0 < csize) :
    ((split_large_file path data csize).map Prod.snd).flatten = data := by
  unfold split_large_file
  rcases le_or_lt data.length MAX_FILE_SIZE with h | h
  · rw [if_pos h]
    simp
  · rw [if_neg (by omega), nameChunks_map_snd, chunkList_flatten data csize hc]

/-- C1: for every file and positive chunk size, `split_large_file` produces
ceil(S/C) parts when the size S exceeds `MAX_FILE_SIZE`, otherwise exactly
one part that is the original file unchanged; and concatenating the parts in
order reproduces the original bytes. -/
theorem C1_split_count_and_roundtrip (path : String) (data : List Nat) (csize : Nat)
    (hc : 0 < csize) :
    (MAX_FILE_SIZE < data.length →
      (split_large_file path data csize).length = (data.length + csize - 1) / csize) ∧
    (data.length ≤ MAX_FILE_SIZE → split_large_file path data csize = [(path, data)]) ∧
    ((split_large_file path data csize).map Prod.snd).flatten = data :=
  ⟨fun h => split_large_file_length path data csize hc h,
   fun h => split_large_file_small path data csize h,
   split_large_file_flatten path data csize hc⟩

/-- Witness for C1 at a concrete oversized file and a concrete small file. -/
theorem C1_split_count_and_roundtrip_witness :
    (split_large_file "v.mp4" bigData MAX_FILE_SIZE).length = 2 ∧
    ((split_large_file "v.mp4" [1, 2, 3] 2).map Prod.snd).flatten = [1, 2, 3] := by
  constructor
  · have h := (C1_split_count_and_roundtrip "v.mp4" bigData MAX_FILE_SIZE
      (by norm_num [MAX_FILE_SIZE])).1
      (by simp only [bigData, List.length_replicate]; omega)
    have hlen : bigData.length = 52428801 := by
      simp only [bigData, List.length_replicate, MAX_FILE_SIZE]
    have hmax : MAX_FILE_SIZE = 52428800 := by norm_num [MAX_FILE_SIZE]
    rw [h, hlen, hmax]
  · exact (C1_split_count_and_roundtrip "v.mp4" [1, 2, 3] 2 (by norm_num)).2.2

/-- C2 counterexample: for the concrete oversized file one byte over the
limit, the handler's split step does not behave like a split with the
configured 1 MiB `CHUNK_SIZE`: it produces 2 parts, not 51. -/
theorem C2_counterexample :
    ¬ (handler_split "v.mp4" bigData = split_large_file "v.mp4" bigData CHUNK_SIZE) := by
  intro heq
  have hbig : MAX_FILE_SIZE < bigData.length := by
    simp only [bigData, List.length_replicate]
    omega
  have hlen : bigData.length = 52428801 := by
    simp only [bigData, List.length_replicate, MAX_FILE_SIZE]
  have hmax : MAX_FILE_SIZE = 52428800 := by norm_num [MAX_FILE_SIZE]
  have hchu : CHUNK_SIZE = 1048576 := by norm_num [CHUNK_SIZE]
  have h1 : (handler_split "v.mp4" bigData).length = 2 := by
    unfold handler_split
    rw [if_pos hbig, split_large_file_length _ _ _ (by norm_num [MAX_FILE_SIZE]) hbig]
    rw [hlen, hmax]
  have h2 : (split_large_file "v.mp4" bigData CHUNK_SIZE).length = 51 := by
    rw [split_large_file_length _ _ _ (by norm_num [CHUNK_SIZE]) hbig]
    rw [hlen, hchu]
  rw [heq, h2] at h1
  exact absurd h1 (by norm_num)

/-- C2 (amended): for every oversized file the handler's split step uses
`MAX_FILE_SIZE` (50 MiB) as the chunk size — not the configured 1 MiB
`CHUNK_SIZE` — producing ceil(S/MAX_FILE_SIZE) parts, each part file named
with the zero-padded 3-digit `_part` sequence suffix preserving the original
extension. -/
theorem C2_handler_chunk_is_max (path : String) (data : List Nat)
    (hbig : MAX_FILE_SIZE < data.length) :
    handler_split path data = split_large_file path data MAX_FILE_SIZE ∧
    (handler_split path data).length = (data.length + MAX_FILE_SIZE - 1) / MAX_FILE_SIZE ∧
    (∀ x ∈ handler_split path data, ∃ j, x.1 = chunkName path j) := by
  have he : handler_split path data = split_large_file path data MAX_FILE_SIZE := by
    unfold handler_split
    rw [if_pos hbig]
  refine ⟨he, ?_, ?_⟩
  · rw [he]
    exact split_large_file_length _ _ _ (by norm_num [MAX_FILE_SIZE]) hbig
  · rw [he]
    unfold split_large_file
    rw [if_neg (by omega)]
    intro x hx
    exact nameChunks_names path _ 0 x hx

/-- Witness for the amended C2 at a concrete oversized file. -/
theorem C2_handler_chunk_is_max_witness :
    handler_split "v.mp4" bigData = split_large_file "v.mp4" bigData MAX_FILE_SIZE :=
  (C2_handler_chunk_is_max "v.mp4" bigData
    (by simp only [bigData, List.length_replicate]; omega)).1

end VideoBot

namespace VideoBot

theorem splitChunksGo_error :
    ∀ (f m : Nat) (cs : List Nat) (wf : Nat → Bool) (i0 : Nat), cs.length ≤ f →
      (∃ k, k * (m + 1) < cs.length ∧ wf (i0 + k) = true) →
      splitChunksGo f cs (m + 1) wf i0 = Except.error () := by
  intro f
  induction f with
  | zero =>
    intro m cs wf i0 hcs hex
    obtain ⟨k, hk, _⟩ := hex
    omega
  | succ f ih =>
    intro m cs wf i0 hcs hex
    obtain ⟨k, hk, hwf⟩ := hex
    cases cs with
    | nil => simp at hk
    | cons c rest =>
      by_cases h0 : wf i0 = true
      · simp only [splitChunksGo, h0, if_true]
      · have h0f : wf i0 = false := by
          cases hv : wf i0 with
          | false => rfl
          | true => exact absurd hv h0
        have hk0 : k ≠ 0 := fun hEq => h0 (by rw [hEq, Nat.add_zero] at hwf; exact hwf)
        obtain ⟨k2, rfl⟩ : ∃ k2, k = k2 + 1 := ⟨k - 1, by omega⟩
        have hlen : (rest.drop m).length ≤ f := by
          simp only [List.length_drop]
          simp only [List.length_cons] at hcs
          omega
        have hmul : (k2 + 1) * (m + 1) = k2 * (m + 1) + (m + 1) := by ring
        have hrec := ih m (rest.drop m) wf (i0 + 1) hlen
          ⟨k2, by
            simp only [List.length_drop]
            simp only [List.length_cons] at hk
            rw [hmul] at hk
            omega,
           by
            have hEq : i0 + 1 + k2 = i0 + (k2 + 1) := by omega
            rw [hEq]
            exact hwf⟩
        simp only [splitChunksGo, h0f, Bool.false_eq_true, if_false, hrec]

theorem splitChunksGo_ok :
    ∀ (f : Nat) (cs : List Nat) (n : Nat) (i0 : Nat),
      splitChunksGo f cs n (fun _ => false) i0 = Except.ok (chunkListGo f cs n) := by
  intro f
  induction f with
  | zero => intro cs n i0; cases cs <;> cases n <;> rfl
  | succ f ih =>
    intro cs n i0
    cases cs with
    | nil => cases n <;> rfl
    | cons c rest =>
      cases n with
      | zero => rfl
      | succ m =>
        simp only [splitChunksGo, chunkListGo, Bool.false_eq_true, if_false,
          ih (rest.drop m) (m + 1) (i0 + 1)]

theorem split_large_fileF_no_fault (path : String) (data : List Nat) (csize : Nat) :
    split_large_fileF path data csize false (fun _ => false) =
      split_large_file path data csize := by
  unfold split_large_fileF split_large_file splitChunksF
  rw [if_neg (by simp)]
  rcases le_or_lt data.length MAX_FILE_SIZE with h | h
  · rw [if_pos h, if_pos h]
  · rw [if_neg (by omega), if_neg (by omega), splitChunksGo_ok]
    rfl

/-- C9: whenever any error is raised during partitioning — while reading the
file size or while writing any chunk that the loop actually reaches — the
whole split aborts and the caller receives the original file as the sole
deliverable. -/
theorem C9_split_error_degrades (path : String) (data : List Nat) (csize : Nat)
    (sizeFault : Bool) (wf : Nat → Bool) (hc : 0 < csize)
    (hfault : sizeFault = true ∨ ∃ k, k * csize < data.length ∧ wf k = true) :
    split_large_fileF path data csize sizeFault wf = [(path, data)] := by
  unfold split_large_fileF
  by_cases hsf : sizeFault = true
  · rw [if_pos hsf]
  · rw [if_neg hsf]
    rcases hfault with hf | ⟨k, hk, hwf⟩
    · exact absurd hf hsf
    · rcases le_or_lt data.length MAX_FILE_SIZE with h | h
      · rw [if_pos h]
      · rw [if_neg (by omega)]
        obtain ⟨m, rfl⟩ : ∃ m, csize = m + 1 := ⟨csize - 1, by omega⟩
        unfold splitChunksF
        rw [splitChunksGo_error data.length m data wf 0 (le_refl _)
          ⟨k, hk, by rw [Nat.zero_add]; exact hwf⟩]

/-- Witness for C9: a size fault on a small file, and a write fault on the
first chunk of an oversized file. -/
theorem C9_split_error_degrades_witness :
    split_large_fileF "v.mp4" [1, 2, 3] 1 true (fun _ => false) = [("v.mp4", [1, 2, 3])] ∧
    split_large_fileF "v.mp4" bigData MAX_FILE_SIZE false (fun i => i == 0) =
      [("v.mp4", bigData)] := by
  constructor
  · exact C9_split_error_degrades "v.mp4" [1, 2, 3] 1 true (fun _ => false)
      (by norm_num) (Or.inl rfl)
  · exact C9_split_error_degrades "v.mp4" bigData MAX_FILE_SIZE false (fun i => i == 0)
      (by norm_num [MAX_FILE_SIZE])
      (Or.inr ⟨0, by simp only [bigData, List.length_replicate]; omega, rfl⟩)

theorem extSplitIndex_le (cs : List Char) : extSplitIndex cs ≤ cs.length := by
  unfold extSplitIndex
  cases hrf : rfindIdx cs '.' with
  | none => exact le_refl _
  | some d =>
    have hd : d ≤ cs.length := by
      unfold rfindIdx at hrf
      cases h2 : (cs.reverse).findIdx? (fun x => x == '.') with
      | none => rw [h2] at hrf; cases hrf
      | some i =>
        rw [h2] at hrf
        injection hrf with h
        omega
    dsimp only
    split
    · exact hd
    · exact le_refl _

theorem chunkName_data (path : String) (i : Nat) :
    (chunkName path i).data =
      path.data.take (extSplitIndex path.data) ++ ("_part".data ++ ((pad3 i).data ++
        path.data.drop (extSplitIndex path.data))) := by
  simp [chunkName, splitext, String.data_append]

theorem chunkName_ne_path (path : String) (i : Nat) : chunkName path i ≠ path := by
  intro h
  have hlen : (chunkName path i).data.length = path.data.length := by rw [h]
  rw [chunkName_data] at hlen
  simp only [List.length_append, List.length_take, List.length_drop] at hlen
  have hle := extSplitIndex_le path.data
  have h5 : ("_part".data).length = 5 := rfl
  rw [h5] at hlen
  omega

theorem chunkName_zero (path : String) :
    chunkName path 0 = (splitext path).1 ++ "_part000" ++ (splitext path).2 := by
  have hmid : ((splitext path).1 ++ "_part") ++ pad3 0 = (splitext path).1 ++ "_part000" := by
    apply String.ext
    simp only [String.data_append]
    rw [List.append_assoc]
    rfl
  unfold chunkName
  rw [hmid]

/-- C10: a file whose size is over `MAX_FILE_SIZE` but at most the chunk
size is still split: the result is a single newly named `_part000` chunk
carrying exactly the original bytes, not the original path. -/
theorem C10_oversized_single_chunk (path : String) (data : List Nat) (csize : Nat)
    (hbig : MAX_FILE_SIZE < data.length) (hle : data.length ≤ csize) :
    split_large_file path data csize = [(chunkName path 0, data)] ∧
    chunkName path 0 = (splitext path).1 ++ "_part000" ++ (splitext path).2 ∧
    chunkName path 0 ≠ path := by
  refine ⟨?_, chunkName_zero path, chunkName_ne_path path 0⟩
  unfold split_large_file
  rw [if_neg (by omega)]
  obtain ⟨m, rfl⟩ : ∃ m, csize = m + 1 := ⟨csize - 1, by omega⟩
  rw [chunkList_single data m
    (by intro hnil; rw [hnil] at hbig; simp only [List.length_nil] at hbig; omega) hle]
  rfl

/-- Witness for C10 at a file one byte over the limit with an equal chunk
size. -/
theorem C10_oversized_single_chunk_witness :
    split_large_file "v.mp4" bigData (MAX_FILE_SIZE + 1) =
      [(chunkName "v.mp4" 0, bigData)] :=
  (C10_oversized_single_chunk "v.mp4" bigData (MAX_FILE_SIZE + 1)
    (by simp only [bigData, List.length_replicate]; omega)
    (by simp only [bigData, List.length_replicate]; omega)).1

/-- C6: cleanup_all never propagates an exception, is a no-op when the
directory tree is already removed, and a second consecutive call is a
no-op (idempotence), assuming a successful `rmtree` removes the tree root. -/
theorem C6_cleanup_idempotent (tempDir : String) (rmtree : FS → Except Unit FS) (fs : FS)
    (hrm : ∀ g g', rmtree g = Except.ok g' → g'.hasPath tempDir = false) :
    cleanup_allE tempDir rmtree fs = Except.ok (cleanup_all tempDir rmtree fs) ∧
    (fs.hasPath tempDir = false → cleanup_all tempDir rmtree fs = fs) ∧
    cleanup_all tempDir rmtree (cleanup_all tempDir rmtree fs) =
      cleanup_all tempDir rmtree fs := by
  by_cases hp : fs.hasPath tempDir = true
  · cases hr : rmtree fs with
    | ok fs2 =>
      have h2 : fs2.hasPath tempDir = false := hrm fs fs2 hr
      refine ⟨?_, ?_, ?_⟩ <;> simp [cleanup_allE, cleanup_all, hp, hr, h2]
    | error e =>
      refine ⟨?_, ?_, ?_⟩ <;> simp [cleanup_allE, cleanup_all, hp, hr]
  · have hp2 : fs.hasPath tempDir = false := by
      cases hv : fs.hasPath tempDir with
      | false => rfl
      | true => exact absurd hv hp
    refine ⟨?_, ?_, ?_⟩ <;> simp [cleanup_allE, cleanup_all, hp2]

/-- Witness for C6: double cleanup after a successful removal. -/
theorem C6_cleanup_idempotent_witness :
    cleanup_all "t" (fun _ => Except.ok ⟨[]⟩)
        (cleanup_all "t" (fun _ => Except.ok ⟨[]⟩) ⟨["t"]⟩) =
      cleanup_all "t" (fun _ => Except.ok ⟨[]⟩) ⟨["t"]⟩ :=
  (C6_cleanup_idempotent "t" (fun _ => Except.ok ⟨[]⟩) ⟨["t"]⟩
    (fun g g' h => by
      injection h with h2
      rw [← h2]
      rfl)).2.2

end VideoBot

namespace VideoBot

theorem dropScheme_suffix (cs : List Char) : dropScheme cs <:+ cs := by
  unfold dropScheme
  cases h : cs.findIdx? (fun c => c == ':') with
  | none => exact List.suffix_refl cs
  | some i =>
    dsimp only
    split
    · exact List.drop_suffix _ _
    · exact List.suffix_refl cs

theorem netlocList_isInfix (cs : List Char) : netlocList cs <:+: cs := by
  unfold netlocList
  split
  · have h1 : ((dropScheme cs).drop 2).takeWhile notDelim <+: (dropScheme cs).drop 2 :=
      List.takeWhile_prefix notDelim
    have h2 : (dropScheme cs).drop 2 <:+ dropScheme cs := List.drop_suffix 2 _
    exact h1.isInfix.trans ((h2.trans (dropScheme_suffix cs)).isInfix)
  · exact ⟨[], cs, by simp⟩

theorem listContains_netloc (cs sub : List Char)
    (h : listContains (netlocList cs) sub = true) : listContains cs sub = true := by
  unfold listContains at h ⊢
  simp only [decide_eq_true_eq] at h ⊢
  exact h.trans (netlocList_isInfix cs)

/-- C4 counterexample: a reddit URL is flagged as requiring a platform
downloader although its platform tag is `other`. -/
theorem C4_counterexample :
    is_video_platform "https://reddit.com/r/videos" = true ∧
    get_platform_type "https://reddit.com/r/videos" = "other" := by
  constructor
  · decide
  · decide

/-- C4 (amended): `is_video_platform` returns true whenever
`get_platform_type` is not `other`; the converse direction of the claim
fails, because `is_video_platform` also accepts hosts (reddit, pinterest,
snapchat, linkedin, tumblr, discord) that classify as `other`. -/
theorem C4_tag_implies_platform_flag (url : String)
    (h : get_platform_type url ≠ "other") : is_video_platform url = true := by
  unfold get_platform_type at h
  unfold is_video_platform
  set n := netlocList (lowerList url.data) with hn
  unfold get_platform_type_core at h
  unfold is_video_platform_core video_platforms
  simp only [List.any_cons, List.any_nil, Bool.or_eq_true, Bool.or_false]
  split_ifs at h with h1 h2 h3 h4 h5 h6 h7 h8
  · simp only [Bool.or_eq_true] at h1
    rcases h1 with h1 | h1
    · simp [h1]
    · simp [h1]
  · simp [h2]
  · simp [h3]
  · simp [h4]
  · simp [h5]
  · simp [h6]
  · simp [h7]
  · simp [h8]
  · exact absurd rfl h

/-- Witness for the amended C4 at a tiktok URL. -/
theorem C4_tag_implies_platform_flag_witness :
    is_video_platform "https://www.tiktok.com/@user/video/123" = true :=
  C4_tag_implies_platform_flag "https://www.tiktok.com/@user/video/123" (by decide)

/-- C8: `get_platform_type` is a pure, case-insensitive function of the
lowercased URL; if exactly one tag of the platform table matches the host it
returns that tag, and if no table entry matches the host it returns
`other`. -/
theorem C8_classifier_table (url : String) :
    (∀ e tag, (e, tag) ∈ platformTable →
      listContains (netlocList (lowerList url.data)) e.data = true →
      (∀ e2 tag2, (e2, tag2) ∈ platformTable → tag2 ≠ tag →
        listContains (netlocList (lowerList url.data)) e2.data = false) →
      get_platform_type url = tag) ∧
    ((∀ e tag, (e, tag) ∈ platformTable →
      listContains (netlocList (lowerList url.data)) e.data = false) →
      get_platform_type url = "other") ∧
    (∀ v : String, lowerList url.data = lowerList v.data →
      get_platform_type url = get_platform_type v) := by
  refine ⟨?_, ?_, ?_⟩
  · intro e tag hmem hmatch hothers
    set n := netlocList (lowerList url.data) with hn
    have hget : get_platform_type url = get_platform_type_core n := rfl
    rw [hget]
    unfold get_platform_type_core
    simp only [platformTable, List.mem_cons, List.not_mem_nil, or_false] at hmem
    rcases hmem with hEq | hEq | hEq | hEq | hEq | hEq | hEq | hEq | hEq <;>
      (rw [Prod.mk.injEq] at hEq; obtain ⟨rfl, rfl⟩ := hEq)
    · simp [hmatch]
    · simp [hmatch]
    · have hy := hothers "youtube.com" "youtube" (by simp [platformTable]) (by decide)
      have hyb := hothers "youtu.be" "youtube" (by simp [platformTable]) (by decide)
      simp [hy, hyb, hmatch]
    · have hy := hothers "youtube.com" "youtube" (by simp [platformTable]) (by decide)
      have hyb := hothers "youtu.be" "youtube" (by simp [platformTable]) (by decide)
      have hin := hothers "instagram.com" "instagram" (by simp [platformTable]) (by decide)
      simp [hy, hyb, hin, hmatch]
    · have hy := hothers "youtube.com" "youtube" (by simp [platformTable]) (by decide)
      have hyb := hothers "youtu.be" "youtube" (by simp [platformTable]) (by decide)
      have hin := hothers "instagram.com" "instagram" (by simp [platformTable]) (by decide)
      have htk := hothers "tiktok.com" "tiktok" (by simp [platformTable]) (by decide)
      simp [hy, hyb, hin, htk, hmatch]
    · have hy := hothers "youtube.com" "youtube" (by simp [platformTable]) (by decide)
      have hyb := hothers "youtu.be" "youtube" (by simp [platformTable]) (by decide)
      have hin := hothers "instagram.com" "instagram" (by simp [platformTable]) (by decide)
      have htk := hothers "tiktok.com" "tiktok" (by simp [platformTable]) (by decide)
      have htw := hothers "twitter.com" "twitter" (by simp [platformTable]) (by decide)
      simp [hy, hyb, hin, htk, htw, hmatch]
    · have hy := hothers "youtube.com" "youtube" (by simp [platformTable]) (by decide)
      have hyb := hothers "youtu.be" "youtube" (by simp [platformTable]) (by decide)
      have hin := hothers "instagram.com" "instagram" (by simp [platformTable]) (by decide)
      have htk := hothers "tiktok.com" "tiktok" (by simp [platformTable]) (by decide)
      have htw := hothers "twitter.com" "twitter" (by simp [platformTable]) (by decide)
      have hfb := hothers "facebook.com" "facebook" (by simp [platformTable]) (by decide)
      simp [hy, hyb, hin, htk, htw, hfb, hmatch]
    · have hy := hothers "youtube.com" "youtube" (by simp [platformTable]) (by decide)
      have hyb := hothers "youtu.be" "youtube" (by simp [platformTable]) (by decide)
      have hin := hothers "instagram.com" "instagram" (by simp [platformTable]) (by decide)
      have htk := hothers "tiktok.com" "tiktok" (by simp [platformTable]) (by decide)
      have htw := hothers "twitter.com" "twitter" (by simp [platformTable]) (by decide)
      have hfb := hothers "facebook.com" "facebook" (by simp [platformTable]) (by decide)
      have hvm := hothers "vimeo.com" "vimeo" (by simp [platformTable]) (by decide)
      simp [hy, hyb, hin, htk, htw, hfb, hvm, hmatch]
    · have hy := hothers "youtube.com" "youtube" (by simp [platformTable]) (by decide)
      have hyb := hothers "youtu.be" "youtube" (by simp [platformTable]) (by decide)
      have hin := hothers "instagram.com" "instagram" (by simp [platformTable]) (by decide)
      have htk := hothers "tiktok.com" "tiktok" (by simp [platformTable]) (by decide)
      have htw := hothers "twitter.com" "twitter" (by simp [platformTable]) (by decide)
      have hfb := hothers "facebook.com" "facebook" (by simp [platformTable]) (by decide)
      have hvm := hothers "vimeo.com" "vimeo" (by simp [platformTable]) (by decide)
      have hdm := hothers "dailymotion.com" "dailymotion" (by simp [platformTable]) (by decide)
      simp [hy, hyb, hin, htk, htw, hfb, hvm, hdm, hmatch]
  · intro hall
    set n := netlocList (lowerList url.data) with hn
    have hget : get_platform_type url = get_platform_type_core n := rfl
    rw [hget]
    unfold get_platform_type_core
    have hy := hall "youtube.com" "youtube" (by simp [platformTable])
    have hyb := hall "youtu.be" "youtube" (by simp [platformTable])
    have hin := hall "instagram.com" "instagram" (by simp [platformTable])
    have htk := hall "tiktok.com" "tiktok" (by simp [platformTable])
    have htw := hall "twitter.com" "twitter" (by simp [platformTable])
    have hfb := hall "facebook.com" "facebook" (by simp [platformTable])
    have hvm := hall "vimeo.com" "vimeo" (by simp [platformTable])
    have hdm := hall "dailymotion.com" "dailymotion" (by simp [platformTable])
    have htv := hall "twitch.tv" "twitch" (by simp [platformTable])
    simp [hy, hyb, hin, htk, htw, hfb, hvm, hdm, htv]
  · intro v hv
    unfold get_platform_type
    rw [hv]

/-- Witness for C8: a uniquely matching host, a host matching no entry, and
case-insensitivity. -/
theorem C8_classifier_table_witness :
    get_platform_type "https://vimeo.com/123" = "vimeo" ∧
    get_platform_type "http://example.com/a" = "other" ∧
    get_platform_type "HTTPS://VIMEO.COM/9" = get_platform_type "https://vimeo.com/9" := by
  refine ⟨?_, ?_, ?_⟩
  · exact (C8_classifier_table "https://vimeo.com/123").1 "vimeo.com" "vimeo"
      (by simp [platformTable]) (by decide)
      (by
        intro e2 tag2 hm hne
        simp only [platformTable, List.mem_cons, List.not_mem_nil, or_false] at hm
        rcases hm with h | h | h | h | h | h | h | h | h <;>
          (rw [Prod.mk.injEq] at h; obtain ⟨rfl, rfl⟩ := h) <;>
          first
          | exact absurd rfl hne
          | decide)
  · exact (C8_classifier_table "http://example.com/a").2.1
      (by
        intro e tag hm
        simp only [platformTable, List.mem_cons, List.not_mem_nil, or_false] at hm
        rcases hm with h | h | h | h | h | h | h | h | h <;>
          (rw [Prod.mk.injEq] at h; obtain ⟨rfl, rfl⟩ := h) <;> decide)
  · exact (C8_classifier_table "HTTPS://VIMEO.COM/9").2.2 "https://vimeo.com/9" (by decide)

end VideoBot

namespace VideoBot

theorem run_no_platform (env : Env) (url : String) (hp : is_video_platform url = false) :
    download_video_run env url =
      ([(Strategy.direct, env.direct)], finalize env env.direct) := by
  unfold download_video_run
  simp only [hp]
  cases hd : env.direct <;> rfl

theorem run_ytdlp_hit (env : Env) (url : String) (r : String)
    (hp : is_video_platform url = true) (hy : env.ytdlp = some r) :
    download_video_run env url =
      ([(Strategy.ytdlp, some r)], finalize env (some r)) := by
  unfold download_video_run download_with_yt_dlp_fallback
  simp only [hp, hy]
  rfl

theorem run_youtubedl_hit (env : Env) (url : String) (r : String)
    (hp : is_video_platform url = true) (hy : env.ytdlp = none)
    (hyd : env.youtubedl = some r) :
    download_video_run env url =
      ([(Strategy.ytdlp, none), (Strategy.youtubedl, some r)], finalize env (some r)) := by
  unfold download_video_run download_with_yt_dlp_fallback
  simp only [hp, hy, hyd]
  rfl

theorem run_instaloader_hit (env : Env) (url : String) (r : String)
    (hp : is_video_platform url = true) (hy : env.ytdlp = none)
    (hyd : env.youtubedl = none)
    (hi : listContains (lowerList url.data) "instagram.com".data = true)
    (hil : env.instaloader = some r) :
    download_video_run env url =
      ([(Strategy.ytdlp, none), (Strategy.youtubedl, none),
        (Strategy.instaloader, some r)], finalize env (some r)) := by
  unfold download_video_run download_with_yt_dlp_fallback
  simp only [hp, hy, hyd, hi, hil]
  rfl

theorem run_insta_enh_hit (env : Env) (url : String) (r : String)
    (hp : is_video_platform url = true) (hy : env.ytdlp = none)
    (hyd : env.youtubedl = none)
    (hi : listContains (lowerList url.data) "instagram.com".data = true)
    (hil : env.instaloader = none) (hg : platformIn3 url = true)
    (he : env.enhanced = some r) :
    download_video_run env url =
      ([(Strategy.ytdlp, none), (Strategy.youtubedl, none), (Strategy.instaloader, none),
        (Strategy.enhanced, some r)], finalize env (some r)) := by
  unfold download_video_run download_with_yt_dlp_fallback
  simp only [hp, hy, hyd, hi, hil, hg, he]
  rfl

theorem run_insta_enh_none (env : Env) (url : String)
    (hp : is_video_platform url = true) (hy : env.ytdlp = none)
    (hyd : env.youtubedl = none)
    (hi : listContains (lowerList url.data) "instagram.com".data = true)
    (hil : env.instaloader = none) (hg : platformIn3 url = true)
    (he : env.enhanced = none) :
    download_video_run env url =
      ([(Strategy.ytdlp, none), (Strategy.youtubedl, none), (Strategy.instaloader, none),
        (Strategy.enhanced, none), (Strategy.direct, env.direct)],
        finalize env env.direct) := by
  unfold download_video_run download_with_yt_dlp_fallback
  simp only [hp, hy, hyd, hi, hil, hg, he]
  cases hd : env.direct <;> rfl

theorem run_insta_no_enh (env : Env) (url : String)
    (hp : is_video_platform url = true) (hy : env.ytdlp = none)
    (hyd : env.youtubedl = none)
    (hi : listContains (lowerList url.data) "instagram.com".data = true)
    (hil : env.instaloader = none) (hg : platformIn3 url = false) :
    download_video_run env url =
      ([(Strategy.ytdlp, none), (Strategy.youtubedl, none), (Strategy.instaloader, none),
        (Strategy.direct, env.direct)], finalize env env.direct) := by
  unfold download_video_run download_with_yt_dlp_fallback
  simp only [hp, hy, hyd, hi, hil, hg]
  cases hd : env.direct <;> rfl

theorem run_noinsta_enh_hit (env : Env) (url : String) (r : String)
    (hp : is_video_platform url = true) (hy : env.ytdlp = none)
    (hyd : env.youtubedl = none)
    (hi : listContains (lowerList url.data) "instagram.com".data = false)
    (hg : platformIn3 url = true) (he : env.enhanced = some r) :
    download_video_run env url =
      ([(Strategy.ytdlp, none), (Strategy.youtubedl, none),
        (Strategy.enhanced, some r)], finalize env (some r)) := by
  unfold download_video_run download_with_yt_dlp_fallback
  simp only [hp, hy, hyd, hi, hg, he]
  rfl

theorem run_noinsta_enh_none (env : Env) (url : String)
    (hp : is_video_platform url = true) (hy : env.ytdlp = none)
    (hyd : env.youtubedl = none)
    (hi : listContains (lowerList url.data) "instagram.com".data = false)
    (hg : platformIn3 url = true) (he : env.enhanced = none) :
    download_video_run env url =
      ([(Strategy.ytdlp, none), (Strategy.youtubedl, none), (Strategy.enhanced, none),
        (Strategy.direct, env.direct)], finalize env env.direct) := by
  unfold download_video_run download_with_yt_dlp_fallback
  simp only [hp, hy, hyd, hi, hg, he]
  cases hd : env.direct <;> rfl

theorem run_noinsta_no_enh (env : Env) (url : String)
    (hp : is_video_platform url = true) (hy : env.ytdlp = none)
    (hyd : env.youtubedl = none)
    (hi : listContains (lowerList url.data) "instagram.com".data = false)
    (hg : platformIn3 url = false) :
    download_video_run env url =
      ([(Strategy.ytdlp, none), (Strategy.youtubedl, none),
        (Strategy.direct, env.direct)], finalize env env.direct) := by
  unfold download_video_run download_with_yt_dlp_fallback
  simp only [hp, hy, hyd, hi, hg]
  cases hd : env.direct <;> rfl

end VideoBot

namespace VideoBot

/-- C5: in every run of the acquisition chain, every attempt except the last
one has a failed outcome (so once a strategy yields a file, no subsequent
strategy is attempted), and the plain direct fetch is attempted whenever no
other attempted strategy produced a file, regardless of the platform tag. -/
theorem C5_short_circuit_and_direct_fallback (env : Env) (url : String) :
    (∀ a ∈ (attempts env url).dropLast, a.2 = none) ∧
    ((∀ a ∈ attempts env url, a.1 ≠ Strategy.direct → a.2 = none) →
      (Strategy.direct, env.direct) ∈ attempts env url) := by
  unfold attempts
  cases hp : is_video_platform url with
  | false =>
    rw [run_no_platform env url hp]
    constructor
    · intro a ha
      simp [List.dropLast] at ha
    · intro _
      simp
  | true =>
    cases hy : env.ytdlp with
    | some r =>
      rw [run_ytdlp_hit env url r hp hy]
      constructor
      · intro a ha
        simp [List.dropLast] at ha
      · intro hall
        have hc := hall (Strategy.ytdlp, some r) (by simp) (by simp)
        simp at hc
    | none =>
      cases hyd : env.youtubedl with
      | some r =>
        rw [run_youtubedl_hit env url r hp hy hyd]
        constructor
        · intro a ha
          simp [List.dropLast] at ha
          simp [ha]
        · intro hall
          have hc := hall (Strategy.youtubedl, some r) (by simp) (by simp)
          simp at hc
      | none =>
        cases hi : listContains (lowerList url.data) ("instagram.com".data) with
        | true =>
          cases hil : env.instaloader with
          | some r =>
            rw [run_instaloader_hit env url r hp hy hyd hi hil]
            constructor
            · intro a ha
              simp [List.dropLast] at ha
              rcases ha with h | h <;> simp [h]
            · intro hall
              have hc := hall (Strategy.instaloader, some r) (by simp) (by simp)
              simp at hc
          | none =>
            cases hg : platformIn3 url with
            | true =>
              cases he : env.enhanced with
              | some r =>
                rw [run_insta_enh_hit env url r hp hy hyd hi hil hg he]
                constructor
                · intro a ha
                  simp [List.dropLast] at ha
                  rcases ha with h | h | h <;> simp [h]
                · intro hall
                  have hc := hall (Strategy.enhanced, some r) (by simp) (by simp)
                  simp at hc
              | none =>
                rw [run_insta_enh_none env url hp hy hyd hi hil hg he]
                constructor
                · intro a ha
                  simp [List.dropLast] at ha
                  rcases ha with h | h | h | h <;> simp [h]
                · intro _
                  simp
            | false =>
              rw [run_insta_no_enh env url hp hy hyd hi hil hg]
              constructor
              · intro a ha
                simp [List.dropLast] at ha
                rcases ha with h | h | h <;> simp [h]
              · intro _
                simp
        | false =>
          cases hg : platformIn3 url with
          | true =>
            cases he : env.enhanced with
            | some r =>
              rw [run_noinsta_enh_hit env url r hp hy hyd hi hg he]
              constructor
              · intro a ha
                simp [List.dropLast] at ha
                rcases ha with h | h <;> simp [h]
              · intro hall
                have hc := hall (Strategy.enhanced, some r) (by simp) (by simp)
                simp at hc
            | none =>
              rw [run_noinsta_enh_none env url hp hy hyd hi hg he]
              constructor
              · intro a ha
                simp [List.dropLast] at ha
                rcases ha with h | h | h <;> simp [h]
              · intro _
                simp
          | false =>
            rw [run_noinsta_no_enh env url hp hy hyd hi hg]
            constructor
            · intro a ha
              simp [List.dropLast] at ha
              rcases ha with h | h <;> simp [h]
            · intro _
              simp

/-- Witness for C5: all strategies fail on a non-platform URL, so the direct
fetch is attempted. -/
theorem C5_short_circuit_and_direct_fallback_witness :
    (Strategy.direct, (none : Option String)) ∈ attempts envAllNone "http://a.com/v.mp4" :=
  (C5_short_circuit_and_direct_fallback envAllNone "http://a.com/v.mp4").2 (by decide)

end VideoBot

namespace VideoBot

/-- C3 counterexample: the chain returns a path to an existing but empty
file (the plain direct fetch wrote zero bytes), contradicting the claim that
a returned path always refers to a non-empty file. -/
theorem C3_counterexample :
    download_video envDirectEmpty "http://a.com/v.mp4" = some "f" ∧
    envDirectEmpty.fsExists "f" = true ∧
    envDirectEmpty.fsSize "f" = 0 :=
  ⟨by decide, by decide, rfl⟩

/-- C3 (amended): assuming each strategy only reports paths of existing
files (as in the source, where returned paths come from directory scans or
from files just written), `download_video` returns a path only to an
existing — possibly empty — file, and raises exactly when every applicable
strategy failed to produce a file. -/
theorem C3_failure_iff_all_fail (env : Env) (url : String) (hpe : ProducedExist env) :
    (∀ p, download_video env url = some p → env.fsExists p = true) ∧
    (download_video env url = none ↔ AllFail env url) := by
  unfold ProducedExist at hpe
  obtain ⟨h1, h2, h3, h4, h5⟩ := hpe
  unfold download_video
  cases hp : is_video_platform url with
  | false =>
    rw [run_no_platform env url hp]
    cases hd : env.direct with
    | some d =>
      have hfe := h5 d hd
      simp [finalize, AllFail, hp, hd, hfe]
    | none =>
      simp [finalize, AllFail, hp, hd]
  | true =>
    cases hy : env.ytdlp with
    | some r =>
      have hfe := h1 r hy
      rw [run_ytdlp_hit env url r hp hy]
      simp [finalize, AllFail, hp, hy, hfe]
    | none =>
      cases hyd : env.youtubedl with
      | some r =>
        have hfe := h2 r hyd
        rw [run_youtubedl_hit env url r hp hy hyd]
        simp [finalize, AllFail, hp, hy, hyd, hfe]
      | none =>
        cases hi : listContains (lowerList url.data) ("instagram.com".data) with
        | true =>
          cases hil : env.instaloader with
          | some r =>
            have hfe := h3 r hil
            rw [run_instaloader_hit env url r hp hy hyd hi hil]
            simp [finalize, AllFail, hp, hy, hyd, hi, hil, hfe]
          | none =>
            cases hg : platformIn3 url with
            | true =>
              cases he : env.enhanced with
              | some r =>
                have hfe := h4 r he
                rw [run_insta_enh_hit env url r hp hy hyd hi hil hg he]
                simp [finalize, AllFail, hp, hy, hyd, hi, hil, hg, he, hfe]
              | none =>
                rw [run_insta_enh_none env url hp hy hyd hi hil hg he]
                cases hd : env.direct with
                | some d =>
                  have hfe := h5 d hd
                  simp [finalize, AllFail, hp, hy, hyd, hi, hil, hg, he, hd, hfe]
                | none =>
                  simp [finalize, AllFail, hp, hy, hyd, hi, hil, hg, he, hd]
            | false =>
              rw [run_insta_no_enh env url hp hy hyd hi hil hg]
              cases hd : env.direct with
              | some d =>
                have hfe := h5 d hd
                simp [finalize, AllFail, hp, hy, hyd, hi, hil, hg, hd, hfe]
              | none =>
                simp [finalize, AllFail, hp, hy, hyd, hi, hil, hg, hd]
        | false =>
          cases hg : platformIn3 url with
          | true =>
            cases he : env.enhanced with
            | some r =>
              have hfe := h4 r he
              rw [run_noinsta_enh_hit env url r hp hy hyd hi hg he]
              simp [finalize, AllFail, hp, hy, hyd, hi, hg, he, hfe]
            | none =>
              rw [run_noinsta_enh_none env url hp hy hyd hi hg he]
              cases hd : env.direct with
              | some d =>
                have hfe := h5 d hd
                simp [finalize, AllFail, hp, hy, hyd, hi, hg, he, hd, hfe]
              | none =>
                simp [finalize, AllFail, hp, hy, hyd, hi, hg, he, hd]
          | false =>
            rw [run_noinsta_no_enh env url hp hy hyd hi hg]
            cases hd : env.direct with
            | some d =>
              have hfe := h5 d hd
              simp [finalize, AllFail, hp, hy, hyd, hi, hg, hd, hfe]
            | none =>
              simp [finalize, AllFail, hp, hy, hyd, hi, hg, hd]

/-- Witness for the amended C3: with every strategy failing on a
non-platform URL, the chain raises. -/
theorem C3_failure_iff_all_fail_witness :
    download_video envAllNone "http://a.com/v.mp4" = none :=
  (C3_failure_iff_all_fail envAllNone "http://a.com/v.mp4"
    (by
      refine ⟨?_, ?_, ?_, ?_, ?_⟩ <;> (intro p h; cases h))).2.mpr
    (by
      constructor
      · intro h
        exact absurd h (by decide)
      · rfl)

end VideoBot

namespace VideoBot

/-- C7 counterexample: on a URL whose platform tag is `youtube` but whose
query string contains the text `instagram.com`, instaloader is attempted
(after yt-dlp and youtube-dl fail), refuting that instaloader runs only when
the platform tag is `instagram`. -/
theorem C7_counterexample :
    (Strategy.instaloader, some "i") ∈
      attempts envInsta "https://youtube.com/watch?list=instagram.com" ∧
    get_platform_type "https://youtube.com/watch?list=instagram.com" ≠ "instagram" :=
  ⟨by decide, by decide⟩

/-- C7 (amended): instaloader is attempted exactly when a platform
downloader is applicable, yt-dlp and youtube-dl both failed, and the
lowercased URL contains the substring `instagram.com` anywhere — a condition
implied by (but weaker than) the platform tag being `instagram`. -/
theorem C7_instaloader_gate (env : Env) (url : String) :
    ((∃ r, (Strategy.instaloader, r) ∈ attempts env url) ↔
      (is_video_platform url = true ∧ env.ytdlp = none ∧ env.youtubedl = none ∧
        listContains (lowerList url.data) "instagram.com".data = true)) ∧
    (get_platform_type url = "instagram" →
      listContains (lowerList url.data) "instagram.com".data = true) := by
  constructor
  · unfold attempts
    cases hp : is_video_platform url with
    | false =>
      rw [run_no_platform env url hp]
      simp [hp]
    | true =>
      cases hy : env.ytdlp with
      | some r =>
        rw [run_ytdlp_hit env url r hp hy]
        simp [hp, hy]
      | none =>
        cases hyd : env.youtubedl with
        | some r =>
          rw [run_youtubedl_hit env url r hp hy hyd]
          simp [hp, hy, hyd]
        | none =>
          cases hi : listContains (lowerList url.data) ("instagram.com".data) with
          | true =>
            cases hil : env.instaloader with
            | some r =>
              rw [run_instaloader_hit env url r hp hy hyd hi hil]
              simp [hp, hy, hyd, hi]
            | none =>
              cases hg : platformIn3 url with
              | true =>
                cases he : env.enhanced with
                | some r =>
                  rw [run_insta_enh_hit env url r hp hy hyd hi hil hg he]
                  simp [hp, hy, hyd, hi]
                | none =>
                  rw [run_insta_enh_none env url hp hy hyd hi hil hg he]
                  simp [hp, hy, hyd, hi]
              | false =>
                rw [run_insta_no_enh env url hp hy hyd hi hil hg]
                simp [hp, hy, hyd, hi]
          | false =>
            cases hg : platformIn3 url with
            | true =>
              cases he : env.enhanced with
              | some r =>
                rw [run_noinsta_enh_hit env url r hp hy hyd hi hg he]
                simp [hp, hy, hyd, hi]
              | none =>
                rw [run_noinsta_enh_none env url hp hy hyd hi hg he]
                simp [hp, hy, hyd, hi]
            | false =>
              rw [run_noinsta_no_enh env url hp hy hyd hi hg]
              simp [hp, hy, hyd, hi]
  · intro h
    apply listContains_netloc
    unfold get_platform_type get_platform_type_core at h
    split_ifs at h with h1 h2 h3 h4 h5 h6 h7 h8
    · exact absurd h (by decide)
    · exact h2
    · exact absurd h (by decide)
    · exact absurd h (by decide)
    · exact absurd h (by decide)
    · exact absurd h (by decide)
    · exact absurd h (by decide)
    · exact absurd h (by decide)
    · exact absurd h (by decide)

/-- Witness for the amended C7: instaloader is attempted on an instagram
URL once yt-dlp and youtube-dl have failed. -/
theorem C7_instaloader_gate_witness :
    ∃ r, (Strategy.instaloader, r) ∈ attempts envInsta "https://instagram.com/p/x" :=
  (C7_instaloader_gate envInsta "https://instagram.com/p/x").1.mpr
    ⟨by decide, rfl, rfl, by decide⟩

end VideoBot
